import Mathlib

/-!
Shallow embedding of the itinerary data-processing pipeline of
`src/lib/itinerary-processor.ts`, together with theorems settling the
specification claims about it.

Modelling conventions:
* a spreadsheet cell (JavaScript `any`) is a sum over strings,
  integer-valued numbers and the empty value (`null`/`undefined`/missing),
  following the data-model note of the spec (§9);
* JavaScript string coercion, truthiness, `Object` property-key lookup and
  insertion-ordered `Set` are made explicit;
* `Number` arithmetic on minute counts stays in `Int`/`Nat` (all values are
  small integers, exact in IEEE doubles); the single genuinely
  floating-point step, `(durationMinutes / 60).toFixed(1)`, is modelled
  exactly by `natToFixed1` below, which rounds `m / 60` to the nearest
  binary double (53-bit significand) and then rounds that double to one
  decimal digit with ties away from zero, as `Number.prototype.toFixed`
  does.
-/

namespace ItinProc

/-- A raw spreadsheet cell: string, (integer-valued) number, or absent
(`null` / `undefined` / out-of-range index). -/
inductive Cell where
  | str (s : String)
  | num (n : Int)
  | empty
deriving DecidableEq

/-- JavaScript truthiness of a cell value: empty strings, the number 0 and
`null`/`undefined` are falsy. -/
def truthy : Cell → Bool
  | .str s => s != ""
  | .num n => n != 0
  | .empty => false

/-- JavaScript string coercion `String(v)` / `v.toString()`.  `Cell.empty`
models `undefined`, whose coercion is the literal `"undefined"`; every place
the pipeline coerces a cell it has already checked truthiness, so this case
is unreachable there. -/
def cellToString : Cell → String
  | .str s => s
  | .num n => toString n
  | .empty => "undefined"

/-- Character-wise lowercasing, modelling `String.prototype.toLowerCase`
on the ASCII range. -/
def lowerString (s : String) : String := String.mk (s.data.map Char.toLower)

/-- Strip leading and trailing whitespace, modelling `String.prototype.trim`. -/
def trimStr (s : String) : String :=
  String.mk (((s.data.dropWhile Char.isWhitespace).reverse.dropWhile Char.isWhitespace).reverse)

/-- A row of raw cells. -/
abbrev Row := List Cell

/-- `row[i]`: reading past the end of a row yields `undefined`. -/
def cellAt (row : Row) (i : Nat) : Cell := row.getD i Cell.empty

/-- The row predicate of `processItineraryData` (lines 40-44 of the
source): day, city and description cells truthy, and the first two cells
are not the header sentinels `'day'` / `'city'` after trim/lowercase. -/
def rowFilter (row : Row) : Bool :=
  truthy (cellAt row 0) && truthy (cellAt row 1) && truthy (cellAt row 5) &&
  (lowerString (trimStr (cellToString (cellAt row 0))) != "day") &&
  (lowerString (trimStr (cellToString (cellAt row 1))) != "city")

/-- `ItineraryItem` of the source.  `category` and `description` keep the
raw cell values, as the JavaScript object does. -/
structure Item where
  timing : String
  category : Cell
  description : Cell
deriving DecidableEq

/-- `DayData` of the source.  `allMeals : Set<string>` is modelled as an
insertion-ordered duplicate-free list, matching JavaScript `Set` order. -/
structure DayData where
  day : Cell
  city : Cell
  date : Cell
  items : List Item
  allMeals : List String
deriving DecidableEq

/-- The four fixed meal keywords, in source order. -/
def mealKeywords : List String := ["breakfast", "brunch", "lunch", "dinner"]

/-- Boolean list-version of "pat is a prefix of hay". -/
def isPrefixOfL : List Char → List Char → Bool
  | [], _ => true
  | _ :: _, [] => false
  | a :: as, b :: bs => a == b && isPrefixOfL as bs

/-- Boolean substring containment, modelling `hay.includes(pat)`. -/
def containsL (pat : List Char) : List Char → Bool
  | [] => isPrefixOfL pat []
  | c :: t => isPrefixOfL pat (c :: t) || containsL pat t

/-- The search text of `detectMealsInItem`:
`` `${category} ${description}`.toLowerCase() `` as a character list. -/
def mealText (category description : Cell) : List Char :=
  ((cellToString category).data ++ ' ' :: (cellToString description).data).map Char.toLower

/-- `detectMealsInItem` (lines 83-95 of the source): the keywords, in
keyword-list order, whose text occurs in the lowercased
`category description` concatenation. -/
def detectMealsInItem (category description : Cell) : List String :=
  mealKeywords.filter (fun kw => containsL kw.data (mealText category description))

/-- The meals detected in a stored item (same cells the grouping loop
passed to `detectMealsInItem`). -/
def itemMeals (it : Item) : List String :=
  detectMealsInItem it.category it.description

/-- `Set.add`: append the element unless already present. -/
def addMeal (s : List String) (m : String) : List String :=
  if m ∈ s then s else s ++ [m]

/-- Adding a list of meals one by one (the `forEach`/`add` loop). -/
def addMeals (s : List String) (ms : List String) : List String :=
  ms.foldl addMeal s

/-- The `ItineraryItem` built from a filtered row (line 59-63):
`timing` is string-coerced and trimmed, category/description stay raw. -/
def rowItem (row : Row) : Item :=
  { timing := trimStr (cellToString (cellAt row 3))
    category := cellAt row 4
    description := cellAt row 5 }

/-- The grouping key of a row: `grouped[day]` coerces the raw day cell to
its string representation (JavaScript object property key). -/
def dayKeyOf (row : Row) : String := cellToString (cellAt row 0)

/-- The fresh bucket created on first sight of a day key (lines 48-56). -/
def newDay (row : Row) : DayData :=
  { day := cellAt row 0
    city := cellAt row 1
    date := cellAt row 2
    items := []
    allMeals := [] }

/-- One iteration body after the bucket exists: push the item and add the
detected meals (lines 58-68). -/
def addRowToDay (row : Row) (d : DayData) : DayData :=
  { d with
    items := d.items ++ [rowItem row]
    allMeals := addMeals d.allMeals (detectMealsInItem (cellAt row 4) (cellAt row 5)) }

/-- The grouping map `Record<string, DayData>`, as an insertion-ordered
association list. -/
abbrev Grouped := List (String × DayData)

/-- Property lookup in the grouping map. -/
def lookupA : Grouped → String → Option DayData
  | [], _ => none
  | (k, v) :: rest, key => if k = key then some v else lookupA rest key

/-- In-place update of the value stored under an existing key. -/
def updateAssoc : Grouped → String → (DayData → DayData) → Grouped
  | [], _, _ => []
  | (k, v) :: rest, key, f =>
    if k = key then (k, f v) :: rest else (k, v) :: updateAssoc rest key f

/-- The `forEach` body of `processItineraryData` (lines 45-69): create the
bucket if the key is unseen, then append the item and accumulate meals. -/
def processRow (g : Grouped) (row : Row) : Grouped :=
  match lookupA g (dayKeyOf row) with
  | some _ => updateAssoc g (dayKeyOf row) (addRowToDay row)
  | none => g ++ [(dayKeyOf row, addRowToDay row (newDay row))]

/-- `data.slice(2).filter(...)` (lines 39-44). -/
def filteredRows (data : List Row) : List Row :=
  (data.drop 2).filter rowFilter

/-- `ItineraryData` of the source.  The title keeps the raw cell value
(`data[0]?.[1]` is not string-coerced by the code). -/
structure ItineraryData where
  title : Cell
  days : Grouped
deriving DecidableEq

/-- `data[0]?.[1] || "Travel Itinerary"` (line 33). -/
def titleOf (data : List Row) : Cell :=
  let c := cellAt (data.getD 0 []) 1
  if truthy c then c else Cell.str "Travel Itinerary"

/-- `processItineraryData` (lines 31-75). -/
def processItineraryData (data : List Row) : ItineraryData :=
  { title := titleOf data
    days := (filteredRows data).foldl processRow [] }

/-- Total number of items over all day buckets. -/
def totalItems (g : Grouped) : Nat :=
  (g.map (fun kb => kb.2.items.length)).sum

/-- Numeric value of a decimal digit character. -/
def digitVal (c : Char) : Nat := c.toNat - '0'.toNat

/-- The range check and minute conversion of `calculateDayDuration`
(lines 134-139): hour in [0,23], minute in [0,59] (the lower bounds are
automatic for digit-parsed naturals), then minutes since midnight. -/
def mkTime (hours minutes : Nat) : Option Nat :=
  if hours ≤ 23 && minutes ≤ 59 then some (hours * 60 + minutes) else none

/-- The anchored match `/^(\d{1,2}):(\d{2})$/` followed by `parseInt` and
the range check (lines 124-139), returning minutes since midnight. -/
def parseTiming (s : String) : Option Nat :=
  match s.data with
  | [h1, ':', m1, m2] =>
    if h1.isDigit && m1.isDigit && m2.isDigit then
      mkTime (digitVal h1) (10 * digitVal m1 + digitVal m2)
    else none
  | [h1, h2, ':', m1, m2] =>
    if h1.isDigit && h2.isDigit && m1.isDigit && m2.isDigit then
      mkTime (10 * digitVal h1 + digitVal h2) (10 * digitVal m1 + digitVal m2)
    else none
  | _ => none

/-- The `times` array: valid parsed timings of the items, in item order. -/
def validTimes (items : List Item) : List Nat :=
  items.filterMap (fun it => parseTiming it.timing)

/-- `Math.min(...times)` over a nonempty list. -/
def minTimes (t : Nat) (ts : List Nat) : Nat := ts.foldl Nat.min t

/-- `Math.max(...times)` over a nonempty list. -/
def maxTimes (t : Nat) (ts : List Nat) : Nat := ts.foldl Nat.max t

/-- The binade scale of `m / 60`: the unique `k` with
`60 * 2 ^ 52 ≤ m * 2 ^ k < 60 * 2 ^ 53` (searched over the first 60
candidates, enough for every positive `m` below `60 * 2 ^ 52`). -/
def kFor (m : Nat) : Nat :=
  ((List.range 60).find? (fun k => 60 * 2 ^ 52 ≤ m * 2 ^ k)).getD 0

/-- Exact model of `(m / 60).toFixed(1)` for a positive integer `m`:
`s` is the 53-bit significand of the IEEE double nearest `m / 60`
(round to nearest; a tie is impossible because `m * 2 ^ (k+1) / 120` can
never have fractional part 1/2), and `n` is that double rounded to tenths
with ties away from zero, as `toFixed` specifies. -/
def natToFixed1 (m : Nat) : String :=
  let k := kFor m
  let s := (m * 2 ^ (k + 1) + 60) / 120
  let n := (10 * s + 2 ^ (k - 1)) / 2 ^ k
  toString (n / 10) ++ "." ++ toString (n % 10)

/-- Formatting of `durationMinutes` (lines 151-156).  With
`durationHours = durationMinutes / 60` as an IEEE double:
`durationHours >= 24` is exactly `1440 ≤ d`, and
`durationHours % 1 === 0` is exactly `60 ∣ d`, for every minute count the
function can receive (the nearest double to `d / 60` is within `2 ^ (-44)`
of it, while a non-multiple of 60 keeps `d / 60` at distance at least
`1 / 60` from every integer). -/
def formatDuration (d : Int) : String :=
  if 1440 ≤ d then "Full day"
  else if d % 60 = 0 then toString (d / 60) ++ " hours"
  else natToFixed1 d.toNat ++ " hours"

/-- `calculateDayDuration` (lines 118-157). -/
def calculateDayDuration (items : List Item) : String :=
  if items.isEmpty then "0 hours"
  else
    match validTimes items with
    | [] => "0 hours"
    | t :: ts =>
      let firstTime := minTimes t ts
      let lastTime := maxTimes t ts
      let d0 : Int := (lastTime : Int) - (firstTime : Int)
      let d : Int := if d0 < 0 then d0 + 1440 else d0
      formatDuration d

/-! ### Reference definitions written from the specification's words

These are the spec-side definitions some claims are compared against; they
are deliberately phrased after the specification text, not the source. -/

/-- Reference for the §4.4 pattern step: match the timing against
`H:MM` / `HH:MM` (1-2 digit hour, exactly 2-digit minute) and return the
parsed (hour, minute) pair, with no range check yet. -/
def specMatchTiming (s : String) : Option (Nat × Nat) :=
  match s.data with
  | [h1, ':', m1, m2] =>
    if h1.isDigit && m1.isDigit && m2.isDigit then
      some (digitVal h1, 10 * digitVal m1 + digitVal m2)
    else none
  | [h1, h2, ':', m1, m2] =>
    if h1.isDigit && h2.isDigit && m1.isDigit && m2.isDigit then
      some (10 * digitVal h1 + digitVal h2, 10 * digitVal m1 + digitVal m2)
    else none
  | _ => none

/-- Reference for §4.4: parse every item, keep the pairs whose hour is in
[0,23] and minute in [0,59], and convert to minutes since midnight. -/
def specValidMinutes (items : List Item) : List Nat :=
  ((items.filterMap (fun it => specMatchTiming it.timing)).filter
      (fun p => p.1 ≤ 23 && p.2 ≤ 59)).map
    (fun p => p.1 * 60 + p.2)

/-- Reference duration calculator assembled from the words of spec §4.4 /
claim C2: empty list or no parsed time gives `"0 hours"`; otherwise
`duration = max - min` over the valid minutes (plus 1440 if negative),
rendered as `"Full day"` at or above 1440 minutes, as a whole number of
hours when divisible by 60, and to one decimal place otherwise (the
decimal digit being the one the implementation's `toFixed(1)` produces). -/
def calcDurationSpecRef (items : List Item) : String :=
  if items.isEmpty then "0 hours"
  else
    let mins := specValidMinutes items
    match mins.min?, mins.max? with
    | some lo, some hi =>
      let d0 : Int := (hi : Int) - (lo : Int)
      let d : Int := if d0 < 0 then d0 + 1440 else d0
      if 1440 ≤ d then "Full day"
      else if d % 60 = 0 then toString (d / 60) ++ " hours"
      else natToFixed1 d.toNat ++ " hours"
    | _, _ => "0 hours"

/-- Claim C3's literal row predicate: the three required cells are
"non-empty (not null/undefined/empty string after implicit string
coercion)" and the two header sentinels are excluded. -/
def claimNonEmpty : Cell → Bool
  | .str s => s != ""
  | .num _ => true
  | .empty => false

/-- The row-keeping predicate exactly as claim C3 words it. -/
def claimRowPred (row : Row) : Bool :=
  claimNonEmpty (cellAt row 0) && claimNonEmpty (cellAt row 1) &&
  claimNonEmpty (cellAt row 5) &&
  (lowerString (trimStr (cellToString (cellAt row 0))) != "day") &&
  (lowerString (trimStr (cellToString (cellAt row 1))) != "city")

/-- The amended row predicate: the three required cells must be truthy
under JavaScript coercion (which additionally rejects the number 0). -/
def truthyRowPred (row : Row) : Bool :=
  truthy (cellAt row 0) && truthy (cellAt row 1) && truthy (cellAt row 5) &&
  (lowerString (trimStr (cellToString (cellAt row 0))) != "day") &&
  (lowerString (trimStr (cellToString (cellAt row 1))) != "city")

/-- The meal-accumulation invariant of a day bucket: `allMeals` is what
re-folding the incremental `Set.add` loop over the bucket's items from an
empty set produces. -/
def mealsInv (b : DayData) : Prop :=
  b.allMeals = b.items.foldl (fun s it => addMeals s (itemMeals it)) []

/-! ### Concrete grids used by counterexamples and witnesses -/

/-- A grid whose only data row has the number 0 as its day cell: kept by
claim C3's literal predicate, dropped by the code's truthiness filter. -/
def gridZeroDay : List Row :=
  [[Cell.str "Title", Cell.str "Trip"],
   [Cell.str "Day", Cell.str "City", Cell.str "Date", Cell.str "Time", Cell.str "Category", Cell.str "Description"],
   [Cell.num 0, Cell.str "Paris", Cell.str "2025-05-01", Cell.str "09:00", Cell.str "Walk", Cell.str "Louvre"]]

/-- Two filtered rows with the same day key `"1"` but different cities. -/
def gridSameDayTwoCities : List Row :=
  [[Cell.str "Title", Cell.str "Trip"],
   [Cell.str "Day", Cell.str "City", Cell.str "Date", Cell.str "Time", Cell.str "Category", Cell.str "Description"],
   [Cell.str "1", Cell.str "Paris", Cell.str "2025-05-01", Cell.str "09:00", Cell.str "Sightseeing", Cell.str "Eiffel Tower visit"],
   [Cell.str "1", Cell.str "Rome", Cell.str "2025-05-02", Cell.str "12:30", Cell.str "Museum", Cell.str "Louvre visit"]]

/-- The day bucket `processItineraryData gridSameDayTwoCities` builds for
key `"1"`: city and date come from the first row. -/
def dayParisFirst : DayData :=
  { day := Cell.str "1"
    city := Cell.str "Paris"
    date := Cell.str "2025-05-01"
    items := [{ timing := "09:00", category := Cell.str "Sightseeing", description := Cell.str "Eiffel Tower visit" },
              { timing := "12:30", category := Cell.str "Museum", description := Cell.str "Louvre visit" }]
    allMeals := [] }

/-- One day with a lunch item and a dinner item. -/
def gridMeals : List Row :=
  [[Cell.str "Title", Cell.str "Trip"],
   [Cell.str "Day", Cell.str "City", Cell.str "Date", Cell.str "Time", Cell.str "Category", Cell.str "Description"],
   [Cell.str "1", Cell.str "Paris", Cell.str "2025-05-01", Cell.str "12:30", Cell.str "Food", Cell.str "Lunch at Cafe"],
   [Cell.str "1", Cell.str "Paris", Cell.str "2025-05-01", Cell.str "19:00", Cell.str "Food", Cell.str "Dinner cruise"]]

/-- The day bucket `processItineraryData gridMeals` builds for key `"1"`. -/
def dayMeals : DayData :=
  { day := Cell.str "1"
    city := Cell.str "Paris"
    date := Cell.str "2025-05-01"
    items := [{ timing := "12:30", category := Cell.str "Food", description := Cell.str "Lunch at Cafe" },
              { timing := "19:00", category := Cell.str "Food", description := Cell.str "Dinner cruise" }]
    allMeals := ["lunch", "dinner"] }

/-- A grid whose two data rows both pass the row filter. -/
def gridAllPass : List Row :=
  [[Cell.str "Title", Cell.str "Trip"],
   [Cell.str "Day", Cell.str "City", Cell.str "Date", Cell.str "Time", Cell.str "Category", Cell.str "Description"],
   [Cell.str "1", Cell.str "Paris", Cell.str "2025-05-01", Cell.str "09:00", Cell.str "Walk", Cell.str "Tower"],
   [Cell.str "2", Cell.str "Rome", Cell.str "2025-05-03", Cell.str "09:30", Cell.str "Walk", Cell.str "Forum"]]

/-- A grid whose only data row is rejected by the filter (empty day cell). -/
def gridAllRejected : List Row :=
  [[Cell.str "Title", Cell.str "Trip"],
   [Cell.str "Day", Cell.str "City", Cell.str "Date", Cell.str "Time", Cell.str "Category", Cell.str "Description"],
   [Cell.empty, Cell.str "Paris", Cell.str "2025-05-01", Cell.str "09:00", Cell.str "Walk", Cell.str "Tower"]]

/-- A number day cell and a string day cell that coerce to the same
property key `"1"`. -/
def gridNumStrDay : List Row :=
  [[Cell.str "Title", Cell.str "Trip"],
   [Cell.str "Day", Cell.str "City", Cell.str "Date", Cell.str "Time", Cell.str "Category", Cell.str "Description"],
   [Cell.num 1, Cell.str "Paris", Cell.str "d1", Cell.str "09:00", Cell.str "Walk", Cell.str "Tower"],
   [Cell.str "1", Cell.str "Rome", Cell.str "d2", Cell.str "10:00", Cell.str "Walk", Cell.str "Forum"]]

/-! ### Helper lemmas about the duration calculator -/

theorem foldl_min_le_init (ts : List Nat) : ∀ t : Nat, ts.foldl Nat.min t ≤ t := by
  induction ts with
  | nil => intro t; exact Nat.le_refl t
  | cons a ts ih =>
    intro t
    exact Nat.le_trans (ih (Nat.min t a)) (Nat.min_le_left t a)

theorem init_le_foldl_max (ts : List Nat) : ∀ t : Nat, t ≤ ts.foldl Nat.max t := by
  induction ts with
  | nil => intro t; exact Nat.le_refl t
  | cons a ts ih =>
    intro t
    exact Nat.le_trans (Nat.le_max_left t a) (ih (Nat.max t a))

theorem foldl_max_le (ts : List Nat) :
    ∀ t c : Nat, t ≤ c → (∀ a ∈ ts, a ≤ c) → ts.foldl Nat.max t ≤ c := by
  induction ts with
  | nil => intro t c h _; exact h
  | cons a ts ih =>
    intro t c htc hall
    exact ih _ c (Nat.max_le.mpr ⟨htc, hall a (List.mem_cons_self a ts)⟩)
      (fun b hb => hall b (List.mem_cons_of_mem a hb))

theorem parseTiming_le_1439 {s : String} {v : Nat} (h : parseTiming s = some v) :
    v ≤ 1439 := by
  unfold parseTiming mkTime at h
  split at h
  · split at h
    · split at h
      · rename_i hr
        simp only [Option.some.injEq] at h
        simp only [Bool.and_eq_true, decide_eq_true_eq] at hr
        omega
      · simp at h
    · simp at h
  · split at h
    · split at h
      · rename_i hr
        simp only [Option.some.injEq] at h
        simp only [Bool.and_eq_true, decide_eq_true_eq] at hr
        omega
      · simp at h
    · simp at h
  · simp at h

theorem validTimes_le_1439 {items : List Item} {v : Nat} (h : v ∈ validTimes items) :
    v ≤ 1439 := by
  unfold validTimes at h
  rcases List.mem_filterMap.mp h with ⟨it, _, hp⟩
  exact parseTiming_le_1439 hp

theorem appendHours_ne_fullDay (s : String) : s ++ " hours" ≠ "Full day" := by
  intro h
  have hd : s.data ++ (" hours").data = ("Full day").data := congrArg String.data h
  have hr := congrArg List.reverse hd
  rw [List.reverse_append] at hr
  have e1 : (" hours").data.reverse = 's' :: ['r', 'u', 'o', 'h', ' '] := by decide
  have e2 : ("Full day").data.reverse = 'y' :: ['a', 'd', ' ', 'l', 'l', 'u', 'F'] := by decide
  rw [e1, e2, List.cons_append] at hr
  injection hr with h1 _
  exact absurd h1 (by decide)

theorem formatDuration_ne_fullDay {d : Int} (hd : d < 1440) :
    formatDuration d ≠ "Full day" := by
  unfold formatDuration
  rw [if_neg (by omega)]
  split
  · exact appendHours_ne_fullDay _
  · exact appendHours_ne_fullDay _

/-! ### Claim theorems (first group) -/

/-- C9: for every item list the computed `max - min` over the valid parsed
times is non-negative (so the `+ 1440` overnight branch can never run) and
at most 1439 minutes, and `calculateDayDuration` never returns
`"Full day"`. -/
theorem duration_never_overnight_never_fullDay :
    ∀ (items : List Item) (t : Nat) (ts : List Nat),
      (validTimes items = t :: ts →
        minTimes t ts ≤ maxTimes t ts ∧
          (0 : Int) ≤ (maxTimes t ts : Int) - (minTimes t ts : Int) ∧
          (maxTimes t ts : Int) - (minTimes t ts : Int) ≤ 1439) ∧
      calculateDayDuration items ≠ "Full day" := by
  intro items t ts
  have hkey : ∀ (t' : Nat) (ts' : List Nat), validTimes items = t' :: ts' →
      minTimes t' ts' ≤ maxTimes t' ts' ∧ maxTimes t' ts' ≤ 1439 := by
    intro t' ts' hv
    have h1 : minTimes t' ts' ≤ t' := foldl_min_le_init ts' t'
    have h2 : t' ≤ maxTimes t' ts' := init_le_foldl_max ts' t'
    have hbound : ∀ a ∈ validTimes items, a ≤ 1439 := fun a ha => validTimes_le_1439 ha
    refine ⟨Nat.le_trans h1 h2, foldl_max_le ts' t' 1439 ?_ ?_⟩
    · exact hbound t' (hv ▸ List.mem_cons_self t' ts')
    · intro a ha; exact hbound a (hv ▸ List.mem_cons_of_mem t' ha)
  constructor
  · intro hv
    rcases hkey t ts hv with ⟨hle, hmax⟩
    refine ⟨hle, ?_, ?_⟩ <;> omega
  · unfold calculateDayDuration
    split
    · decide
    · split
      · decide
      · rename_i t' ts' hv
        rcases hkey t' ts' hv with ⟨hle, hmax⟩
        have hd0 : ¬ ((maxTimes t' ts' : Int) - (minTimes t' ts' : Int) < 0) := by omega
        show formatDuration
            (if ((maxTimes t' ts' : Int) - (minTimes t' ts' : Int)) < 0 then
              ((maxTimes t' ts' : Int) - (minTimes t' ts' : Int)) + 1440
            else ((maxTimes t' ts' : Int) - (minTimes t' ts' : Int))) ≠ "Full day"
        rw [if_neg hd0]
        exact formatDuration_ne_fullDay (by omega)

/-- Witness for C9 at the one-item list with timing `"09:00"`. -/
theorem duration_never_overnight_never_fullDay_witness :
    (minTimes 540 [] ≤ maxTimes 540 [] ∧
      (0 : Int) ≤ (maxTimes 540 [] : Int) - (minTimes 540 [] : Int) ∧
      (maxTimes 540 [] : Int) - (minTimes 540 [] : Int) ≤ 1439) ∧
    calculateDayDuration [{ timing := "09:00", category := Cell.empty, description := Cell.empty }] ≠ "Full day" :=
  ⟨(duration_never_overnight_never_fullDay
      [{ timing := "09:00", category := Cell.empty, description := Cell.empty }] 540 []).1 (by decide),
   (duration_never_overnight_never_fullDay
      [{ timing := "09:00", category := Cell.empty, description := Cell.empty }] 540 []).2⟩

/-- C1: on the two-item list with timings `"23:00"` and `"01:00"` the code
takes `max - min = 1320` minutes (the overnight `+ 1440` branch is dead
code) and returns `"22 hours"`, not the `"2 hours"` the specification's
overnight-wraparound test expects. -/
theorem overnightPairEvaluatesTo22Hours :
    calculateDayDuration
        [{ timing := "23:00", category := Cell.empty, description := Cell.empty },
         { timing := "01:00", category := Cell.empty, description := Cell.empty }] = "22 hours" := by
  decide

/-- C10: the grouping key is the string coercion of the raw day cell, so a
number day cell `1` and a string day cell `"1"` land in the same bucket. -/
theorem dayKey_is_string_coercion :
    (∀ row : Row, dayKeyOf row = cellToString (cellAt row 0)) ∧
    (processItineraryData gridNumStrDay).days.map (fun kb => (kb.1, kb.2.items.length)) = [("1", 2)] :=
  ⟨fun _ => rfl, by decide⟩

/-! ### Helper lemmas about the grouping fold -/

theorem totalItems_cons (k : String) (v : DayData) (rest : Grouped) :
    totalItems ((k, v) :: rest) = v.items.length + totalItems rest := by
  simp [totalItems]

theorem lookupA_update_self (g : Grouped) (key : String) (f : DayData → DayData) :
    lookupA (updateAssoc g key f) key = (lookupA g key).map f := by
  induction g with
  | nil => rfl
  | cons kv rest ih =>
    obtain ⟨k, v⟩ := kv
    by_cases hk : k = key
    · simp [updateAssoc, lookupA, hk]
    · simp [updateAssoc, lookupA, hk, ih]

theorem lookupA_update_ne (g : Grouped) (key key' : String) (f : DayData → DayData)
    (h : key ≠ key') :
    lookupA (updateAssoc g key f) key' = lookupA g key' := by
  induction g with
  | nil => rfl
  | cons kv rest ih =>
    obtain ⟨k, v⟩ := kv
    by_cases hk : k = key
    · simp [updateAssoc, lookupA, hk, h]
    · by_cases hk2 : k = key'
      · simp [updateAssoc, lookupA, hk, hk2, Ne.symm h]
      · simp [updateAssoc, lookupA, hk, hk2, ih]

theorem lookupA_append_some {g : Grouped} {key : String} {b : DayData}
    (h : lookupA g key = some b) (k : String) (v : DayData) :
    lookupA (g ++ [(k, v)]) key = some b := by
  induction g with
  | nil => simp [lookupA] at h
  | cons kv rest ih =>
    obtain ⟨k', v'⟩ := kv
    by_cases hk : k' = key
    · simp [lookupA, hk] at h ⊢; exact h
    · simp [lookupA, hk] at h ⊢; exact ih h

theorem lookupA_append_none {g : Grouped} {key : String}
    (h : lookupA g key = none) (k : String) (v : DayData) :
    lookupA (g ++ [(k, v)]) key = if k = key then some v else none := by
  induction g with
  | nil => rfl
  | cons kv rest ih =>
    obtain ⟨k', v'⟩ := kv
    by_cases hk : k' = key
    · simp [lookupA, hk] at h
    · simp [lookupA, hk] at h ⊢; exact ih h

theorem lookupA_processRow_ne {row : Row} {key : String}
    (h : dayKeyOf row ≠ key) (g : Grouped) :
    lookupA (processRow g row) key = lookupA g key := by
  unfold processRow
  cases hl : lookupA g (dayKeyOf row) with
  | some d => exact lookupA_update_ne g (dayKeyOf row) key _ h
  | none =>
    cases hl' : lookupA g key with
    | some b => exact lookupA_append_some hl' _ _
    | none => rw [lookupA_append_none hl', if_neg h]

theorem lookupA_processRow_self (g : Grouped) (row : Row) :
    lookupA (processRow g row) (dayKeyOf row) =
      some (addRowToDay row ((lookupA g (dayKeyOf row)).getD (newDay row))) := by
  unfold processRow
  cases hl : lookupA g (dayKeyOf row) with
  | some d => rw [lookupA_update_self, hl]; rfl
  | none => rw [lookupA_append_none hl, if_pos rfl]; rfl

theorem totalItems_update_addRow (row : Row) :
    ∀ (g : Grouped) (key : String), (lookupA g key).isSome →
      totalItems (updateAssoc g key (addRowToDay row)) = totalItems g + 1 := by
  intro g
  induction g with
  | nil => intro key h; simp [lookupA] at h
  | cons kv rest ih =>
    obtain ⟨k, v⟩ := kv
    intro key h
    by_cases hk : k = key
    · simp only [updateAssoc, if_pos hk, totalItems_cons, addRowToDay]
      simp [List.length_append]
      omega
    · have h' : (lookupA rest key).isSome := by simpa [lookupA, hk] using h
      simp only [updateAssoc, if_neg hk, totalItems_cons, ih key h']
      omega

theorem totalItems_processRow (g : Grouped) (row : Row) :
    totalItems (processRow g row) = totalItems g + 1 := by
  unfold processRow
  cases hl : lookupA g (dayKeyOf row) with
  | some d => exact totalItems_update_addRow row g _ (by rw [hl]; rfl)
  | none =>
    simp [totalItems, addRowToDay, newDay]

theorem totalItems_foldl :
    ∀ (L : List Row) (g : Grouped),
      totalItems (L.foldl processRow g) = totalItems g + L.length := by
  intro L
  induction L with
  | nil => intro g; simp
  | cons r L ih =>
    intro g
    simp only [List.foldl_cons, ih, totalItems_processRow, List.length_cons]
    omega

/-! ### Claim theorems (second group) -/

/-- C6: when every data row (rows from index 2 on) passes the row filter,
the total number of items over all day buckets equals the number of
filtered rows, which is then the number of data rows. -/
theorem totalItems_eq_filteredRowCount (data : List Row)
    (h : ∀ row ∈ data.drop 2, rowFilter row = true) :
    totalItems (processItineraryData data).days = (filteredRows data).length ∧
    (filteredRows data).length = (data.drop 2).length := by
  have hf : filteredRows data = data.drop 2 := by
    unfold filteredRows
    exact List.filter_eq_self.mpr h
  constructor
  · show totalItems ((filteredRows data).foldl processRow []) = _
    rw [totalItems_foldl]
    simp [totalItems]
  · rw [hf]

/-- Witness for C6 at a grid whose two data rows both pass the filter. -/
theorem totalItems_eq_filteredRowCount_witness :
    totalItems (processItineraryData gridAllPass).days = (filteredRows gridAllPass).length ∧
    (filteredRows gridAllPass).length = (gridAllPass.drop 2).length :=
  totalItems_eq_filteredRowCount gridAllPass (by decide)

/-- C3 as amended: after skipping the first 2 rows, `processItineraryData`
keeps exactly the rows whose day, city and description cells are truthy
under JavaScript coercion (not null/undefined, not the empty string, and
not the number 0) and whose first two cells are not the header sentinels;
every other row is silently dropped. -/
theorem keepsExactlyTruthyRows (data : List Row) :
    filteredRows data = (data.drop 2).filter truthyRowPred ∧
    totalItems (processItineraryData data).days = ((data.drop 2).filter truthyRowPred).length := by
  have hp : rowFilter = truthyRowPred := funext fun _ => rfl
  have h1 : filteredRows data = (data.drop 2).filter truthyRowPred := by
    unfold filteredRows
    rw [hp]
  refine ⟨h1, ?_⟩
  show totalItems ((filteredRows data).foldl processRow []) = _
  rw [totalItems_foldl, h1]
  simp [totalItems]

/-! ### First-write-wins for city and date (C4) -/

theorem foldl_preserves_cityDate :
    ∀ (L : List Row) (g : Grouped) (key : String) (b0 : DayData),
      lookupA g key = some b0 →
      ∃ b, lookupA (L.foldl processRow g) key = some b ∧ b.city = b0.city ∧ b.date = b0.date := by
  intro L
  induction L with
  | nil => intro g key b0 h; exact ⟨b0, h, rfl, rfl⟩
  | cons r L ih =>
    intro g key b0 h
    by_cases hk : dayKeyOf r = key
    · subst hk
      have hl : lookupA (processRow g r) (dayKeyOf r) = some (addRowToDay r b0) := by
        rw [lookupA_processRow_self, h]
        rfl
      rcases ih (processRow g r) (dayKeyOf r) (addRowToDay r b0) hl with ⟨b, hb, hc, hd⟩
      exact ⟨b, hb, hc, hd⟩
    · have hl : lookupA (processRow g r) key = some b0 := by
        rw [lookupA_processRow_ne hk, h]
      exact ih _ key b0 hl

theorem foldl_create_cityDate :
    ∀ (L : List Row) (g : Grouped) (key : String) (b : DayData),
      lookupA g key = none →
      lookupA (L.foldl processRow g) key = some b →
      ∃ r, L.find? (fun row => dayKeyOf row == key) = some r ∧
        b.city = cellAt r 1 ∧ b.date = cellAt r 2 := by
  intro L
  induction L with
  | nil =>
    intro g key b h0 h1
    rw [List.foldl_nil] at h1
    exact absurd (h0.symm.trans h1) (by simp)
  | cons r L ih =>
    intro g key b h0 h1
    rw [List.foldl_cons] at h1
    by_cases hk : dayKeyOf r = key
    · subst hk
      have hnew : lookupA (processRow g r) (dayKeyOf r) = some (addRowToDay r (newDay r)) := by
        rw [lookupA_processRow_self, h0]
        rfl
      rcases foldl_preserves_cityDate L (processRow g r) (dayKeyOf r) _ hnew with ⟨b', hb', hc, hd⟩
      have hbb : b' = b := Option.some.inj (hb'.symm.trans h1)
      subst hbb
      refine ⟨r, ?_, hc, hd⟩
      rw [List.find?_cons_of_pos _ (by simp)]
    · have h0' : lookupA (processRow g r) key = none := by
        rw [lookupA_processRow_ne hk, h0]
      rcases ih (processRow g r) key b h0' h1 with ⟨r', hr', hc, hd⟩
      refine ⟨r', ?_, hc, hd⟩
      rw [List.find?_cons_of_neg _ (by simp [hk])]
      exact hr'

/-- C4: for every grid and day key, the city and date of the resulting
bucket come from the first filtered row with that day key; later rows with
the same key never overwrite them. -/
theorem cityDate_firstWriteWins (data : List Row) (key : String) (b : DayData)
    (h : lookupA (processItineraryData data).days key = some b) :
    ∃ r, (filteredRows data).find? (fun row => dayKeyOf row == key) = some r ∧
      b.city = cellAt r 1 ∧ b.date = cellAt r 2 :=
  foldl_create_cityDate (filteredRows data) [] key b rfl h

/-- Witness for C4: two filtered rows share day key `"1"` with cities
Paris then Rome, and the bucket keeps Paris. -/
theorem cityDate_firstWriteWins_witness :
    ∃ r, (filteredRows gridSameDayTwoCities).find? (fun row => dayKeyOf row == "1") = some r ∧
      dayParisFirst.city = cellAt r 1 ∧ dayParisFirst.date = cellAt r 2 :=
  cityDate_firstWriteWins gridSameDayTwoCities "1" dayParisFirst (by decide)

/-! ### The allMeals invariant (C5) -/

theorem mealsInv_newDay (row : Row) : mealsInv (newDay row) := rfl

theorem mealsInv_addRow (row : Row) (d : DayData) (h : mealsInv d) :
    mealsInv (addRowToDay row d) := by
  unfold mealsInv at h ⊢
  show addMeals d.allMeals (detectMealsInItem (cellAt row 4) (cellAt row 5)) =
    (d.items ++ [rowItem row]).foldl (fun s it => addMeals s (itemMeals it)) []
  rw [List.foldl_append, ← h]
  rfl

theorem updateAssoc_forall {Q : DayData → Prop} (f : DayData → DayData)
    (hf : ∀ d, Q d → Q (f d)) :
    ∀ (g : Grouped) (key : String), (∀ kb ∈ g, Q kb.2) →
      ∀ kb ∈ updateAssoc g key f, Q kb.2 := by
  intro g
  induction g with
  | nil => intro key h kb hkb; simp [updateAssoc] at hkb
  | cons kv rest ih =>
    obtain ⟨k, v⟩ := kv
    intro key h kb hkb
    by_cases hk : k = key
    · simp only [updateAssoc, if_pos hk] at hkb
      rcases List.mem_cons.mp hkb with h1 | h2
      · exact h1 ▸ hf v (h (k, v) (List.mem_cons_self _ _))
      · exact h kb (List.mem_cons_of_mem _ h2)
    · simp only [updateAssoc, if_neg hk] at hkb
      rcases List.mem_cons.mp hkb with h1 | h2
      · exact h1 ▸ h (k, v) (List.mem_cons_self _ _)
      · exact ih key (fun kb' hkb' => h kb' (List.mem_cons_of_mem _ hkb')) kb h2

theorem processRow_forall {Q : DayData → Prop}
    (hadd : ∀ row d, Q d → Q (addRowToDay row d)) (hnew : ∀ row, Q (newDay row)) :
    ∀ (g : Grouped) (row : Row), (∀ kb ∈ g, Q kb.2) →
      ∀ kb ∈ processRow g row, Q kb.2 := by
  intro g row h kb hkb
  unfold processRow at hkb
  split at hkb
  · exact updateAssoc_forall _ (hadd row) g _ h kb hkb
  · rcases List.mem_append.mp hkb with h1 | h2
    · exact h kb h1
    · rw [List.mem_singleton] at h2
      exact h2 ▸ hadd row _ (hnew row)

theorem foldl_forall {Q : DayData → Prop}
    (hadd : ∀ row d, Q d → Q (addRowToDay row d)) (hnew : ∀ row, Q (newDay row)) :
    ∀ (L : List Row) (g : Grouped), (∀ kb ∈ g, Q kb.2) →
      ∀ kb ∈ L.foldl processRow g, Q kb.2 := by
  intro L
  induction L with
  | nil => intro g h; exact h
  | cons r L ih =>
    intro g h
    rw [List.foldl_cons]
    exact ih _ (processRow_forall hadd hnew g r h)

theorem lookupA_mem : ∀ {g : Grouped} {key : String} {b : DayData},
    lookupA g key = some b → (key, b) ∈ g := by
  intro g
  induction g with
  | nil => intro key b h; simp [lookupA] at h
  | cons kv rest ih =>
    obtain ⟨k, v⟩ := kv
    intro key b h
    by_cases hk : k = key
    · simp only [lookupA, if_pos hk, Option.some.injEq] at h
      rw [← hk, ← h]
      exact List.mem_cons_self _ _
    · simp only [lookupA, if_neg hk] at h
      exact List.mem_cons_of_mem _ (ih h)

theorem mem_addMeal (s : List String) (a m : String) :
    m ∈ addMeal s a ↔ m ∈ s ∨ m = a := by
  unfold addMeal
  by_cases h : a ∈ s
  · rw [if_pos h]
    constructor
    · exact Or.inl
    · rintro (h1 | rfl)
      · exact h1
      · exact h
  · rw [if_neg h]
    simp

theorem mem_foldl_addMeal : ∀ (l s : List String) (m : String),
    m ∈ l.foldl addMeal s ↔ m ∈ s ∨ m ∈ l := by
  intro l
  induction l with
  | nil => simp
  | cons a l ih =>
    intro s m
    rw [List.foldl_cons, ih, mem_addMeal]
    simp [or_assoc]

theorem nodup_addMeal (s : List String) (a : String) (h : s.Nodup) :
    (addMeal s a).Nodup := by
  unfold addMeal
  by_cases ha : a ∈ s
  · rwa [if_pos ha]
  · rw [if_neg ha, ← List.concat_eq_append]
    exact h.concat ha

theorem nodup_foldl_addMeal : ∀ (l s : List String), s.Nodup → (l.foldl addMeal s).Nodup := by
  intro l
  induction l with
  | nil => intro s h; exact h
  | cons a l ih =>
    intro s h
    rw [List.foldl_cons]
    exact ih _ (nodup_addMeal s a h)

theorem foldl_items_flatten : ∀ (items : List Item) (s : List String),
    items.foldl (fun s it => addMeals s (itemMeals it)) s =
      (items.flatMap itemMeals).foldl addMeal s := by
  intro items
  induction items with
  | nil => intro s; rfl
  | cons it items ih =>
    intro s
    rw [List.foldl_cons, ih, List.flatMap_cons, List.foldl_append]
    rfl

/-- C5: in every bucket of `processItineraryData`, `allMeals` is exactly
the deduplicated union of `detectMealsInItem` over the bucket's items. -/
theorem allMeals_eq_detected_union (data : List Row) (key : String) (b : DayData)
    (h : lookupA (processItineraryData data).days key = some b) :
    b.allMeals.Nodup ∧ ∀ m, m ∈ b.allMeals ↔ m ∈ b.items.flatMap itemMeals := by
  have hinv : mealsInv b :=
    foldl_forall (Q := mealsInv) mealsInv_addRow mealsInv_newDay
      (filteredRows data) [] (by simp) (key, b) (lookupA_mem h)
  rw [mealsInv] at hinv
  constructor
  · rw [hinv, foldl_items_flatten]
    exact nodup_foldl_addMeal _ _ List.nodup_nil
  · intro m
    rw [hinv, foldl_items_flatten, mem_foldl_addMeal]
    simp

/-- Witness for C5: a day with a lunch item and a dinner item. -/
theorem allMeals_eq_detected_union_witness :
    dayMeals.allMeals.Nodup ∧
    ("lunch" ∈ dayMeals.allMeals ↔ "lunch" ∈ dayMeals.items.flatMap itemMeals) :=
  ⟨(allMeals_eq_detected_union gridMeals "1" dayMeals (by decide)).1,
   (allMeals_eq_detected_union gridMeals "1" dayMeals (by decide)).2 "lunch"⟩

/-- C8: an empty grid, and any grid whose data rows are all rejected,
produce an empty day mapping (no error is possible: the function is
total); the title is `grid[0][1]` when that is a non-empty string and
defaults to `"Travel Itinerary"` when the cell is absent. -/
theorem emptyGrid_emptyDays_and_title :
    ((processItineraryData []).days = [] ∧
      (processItineraryData []).title = Cell.str "Travel Itinerary") ∧
    (∀ data : List Row, (∀ row ∈ data.drop 2, rowFilter row = false) →
      (processItineraryData data).days = []) ∧
    (∀ (data : List Row) (s : String), cellAt (data.getD 0 []) 1 = Cell.str s → s ≠ "" →
      (processItineraryData data).title = Cell.str s) ∧
    (∀ data : List Row, cellAt (data.getD 0 []) 1 = Cell.empty →
      (processItineraryData data).title = Cell.str "Travel Itinerary") := by
  refine ⟨⟨rfl, rfl⟩, ?_, ?_, ?_⟩
  · intro data h
    have hf : filteredRows data = [] := by
      unfold filteredRows
      rw [List.filter_eq_nil_iff]
      intro a ha
      simp [h a ha]
    show (filteredRows data).foldl processRow [] = []
    rw [hf]
    rfl
  · intro data s hc hs
    show titleOf data = _
    simp only [titleOf, hc]
    rw [if_pos (by simp [truthy, hs])]
  · intro data hc
    show titleOf data = _
    simp only [titleOf, hc]
    rfl

/-- Witness for C8: a grid whose single data row is rejected yields an
empty day map, and a present non-empty title cell is used verbatim. -/
theorem emptyGrid_emptyDays_and_title_witness :
    (processItineraryData gridAllRejected).days = [] ∧
    (processItineraryData gridAllPass).title = Cell.str "Trip" :=
  ⟨emptyGrid_emptyDays_and_title.2.1 gridAllRejected (by decide),
   emptyGrid_emptyDays_and_title.2.2.1 gridAllPass "Trip" rfl (by decide)⟩

/-- C3 counterexample: a data row whose day cell is the number 0 satisfies
the claim's literal "non-empty after string coercion" predicate, yet
`processItineraryData` drops it (JavaScript truthiness rejects 0), so the
kept rows are not exactly those the claim describes. -/
theorem claimRowPred_counterexample :
    claimRowPred [Cell.num 0, Cell.str "Paris", Cell.str "2025-05-01", Cell.str "09:00", Cell.str "Walk", Cell.str "Louvre"] = true ∧
    (processItineraryData gridZeroDay).days = [] :=
  ⟨by decide, by decide⟩

/-! ### The meal detector (C7): keyword occurrences cannot cross the
space separator, so swapping category and description is harmless -/

theorem prefixL_space (y : List Char) :
    ∀ (x : List Char) (p : Char) (ps : List Char), ' ' ∉ p :: ps →
      isPrefixOfL (p :: ps) (x ++ ' ' :: y) = isPrefixOfL (p :: ps) x := by
  intro x
  induction x with
  | nil =>
    intro p ps h
    have hp : (p == ' ') = false := by
      simp only [beq_eq_false_iff_ne, ne_eq]
      intro hh
      exact h (by simp [hh])
    show ((p == ' ') && isPrefixOfL ps y) = isPrefixOfL (p :: ps) []
    rw [hp, Bool.false_and]
    rfl
  | cons c xs ih =>
    intro p ps h
    show ((p == c) && isPrefixOfL ps (xs ++ ' ' :: y)) = ((p == c) && isPrefixOfL ps xs)
    cases ps with
    | nil => rfl
    | cons q qs =>
      have h' : ' ' ∉ q :: qs := fun hh => h (List.mem_cons_of_mem _ hh)
      rw [ih q qs h']

theorem containsL_space (y : List Char) :
    ∀ (x : List Char) (p : Char) (ps : List Char), ' ' ∉ p :: ps →
      containsL (p :: ps) (x ++ ' ' :: y) =
        (containsL (p :: ps) x || containsL (p :: ps) y) := by
  intro x
  induction x with
  | nil =>
    intro p ps h
    have hp : (p == ' ') = false := by
      simp only [beq_eq_false_iff_ne, ne_eq]
      intro hh
      exact h (by simp [hh])
    show (((p == ' ') && isPrefixOfL ps y) || containsL (p :: ps) y) =
      (isPrefixOfL (p :: ps) [] || containsL (p :: ps) y)
    rw [hp, Bool.false_and]
    rfl
  | cons c xs ih =>
    intro p ps h
    show (isPrefixOfL (p :: ps) ((c :: xs) ++ ' ' :: y) || containsL (p :: ps) (xs ++ ' ' :: y)) =
      ((isPrefixOfL (p :: ps) (c :: xs) || containsL (p :: ps) xs) || containsL (p :: ps) y)
    rw [prefixL_space y (c :: xs) p ps h, ih p ps h, Bool.or_assoc]

theorem mealText_eq (c d : Cell) :
    mealText c d =
      (cellToString c).data.map Char.toLower ++ ' ' :: (cellToString d).data.map Char.toLower := by
  unfold mealText
  rw [List.map_append, List.map_cons]
  rfl

theorem containsL_mealText_swap (p : Char) (ps : List Char) (h : ' ' ∉ p :: ps)
    (c d : Cell) :
    containsL (p :: ps) (mealText c d) = containsL (p :: ps) (mealText d c) := by
  rw [mealText_eq c d, mealText_eq d c, containsL_space _ _ p ps h,
    containsL_space _ _ p ps h, Bool.or_comm]

/-- C7: `detectMealsInItem` is deterministic, its output is a duplicate-free
subsequence of the fixed keyword list `breakfast, brunch, lunch, dinner`
(so each keyword appears at most once, in that order, regardless of text
position), and swapping the category and description arguments detects the
same set of keywords. -/
theorem detectMeals_deterministic_ordered_symmetric :
    ∀ c d : Cell,
      detectMealsInItem c d = detectMealsInItem c d ∧
      (detectMealsInItem c d).Sublist mealKeywords ∧
      (detectMealsInItem c d).Nodup ∧
      ∀ m, m ∈ detectMealsInItem c d ↔ m ∈ detectMealsInItem d c := by
  intro c d
  have hswap : ∀ m ∈ mealKeywords,
      containsL m.data (mealText c d) = containsL m.data (mealText d c) := by
    intro m hm
    simp only [mealKeywords, List.mem_cons, List.not_mem_nil, or_false] at hm
    rcases hm with rfl | rfl | rfl | rfl
    · exact containsL_mealText_swap 'b' ['r', 'e', 'a', 'k', 'f', 'a', 's', 't'] (by decide) c d
    · exact containsL_mealText_swap 'b' ['r', 'u', 'n', 'c', 'h'] (by decide) c d
    · exact containsL_mealText_swap 'l' ['u', 'n', 'c', 'h'] (by decide) c d
    · exact containsL_mealText_swap 'd' ['i', 'n', 'n', 'e', 'r'] (by decide) c d
  refine ⟨rfl, List.filter_sublist _, (List.filter_sublist _).nodup (by decide), ?_⟩
  intro m
  unfold detectMealsInItem
  rw [List.mem_filter, List.mem_filter]
  constructor
  · rintro ⟨hm, hp⟩
    exact ⟨hm, by rw [← hswap m hm]; exact hp⟩
  · rintro ⟨hm, hp⟩
    exact ⟨hm, by rw [hswap m hm]; exact hp⟩

/-! ### Refinement of the duration calculator against spec §4.4 (C2) -/

theorem parseTiming_eq_specChain (s : String) :
    parseTiming s = (specMatchTiming s).bind
      (fun p => if p.1 ≤ 23 && p.2 ≤ 59 then some (p.1 * 60 + p.2) else none) := by
  unfold parseTiming specMatchTiming mkTime
  split
  · split
    · rfl
    · rfl
  · split
    · rfl
    · rfl
  · rfl

theorem specValidMinutes_eq (items : List Item) :
    specValidMinutes items = validTimes items := by
  unfold specValidMinutes validTimes
  induction items with
  | nil => rfl
  | cons it items ih =>
    cases hs : specMatchTiming it.timing with
    | none =>
      have hp : parseTiming it.timing = none := by
        rw [parseTiming_eq_specChain, hs]
        rfl
      simp only [List.filterMap_cons, hs, hp]
      exact ih
    | some p =>
      obtain ⟨h, m⟩ := p
      by_cases hr : (h ≤ 23 && m ≤ 59) = true
      · have hp : parseTiming it.timing = some (h * 60 + m) := by
          rw [parseTiming_eq_specChain, hs]
          show (if h ≤ 23 && m ≤ 59 then some (h * 60 + m) else none) = some (h * 60 + m)
          rw [if_pos hr]
        simp only [List.filterMap_cons, hs, hp, List.filter_cons, hr, if_pos, List.map_cons]
        rw [ih]
      · have hp : parseTiming it.timing = none := by
          rw [parseTiming_eq_specChain, hs]
          show (if h ≤ 23 && m ≤ 59 then some (h * 60 + m) else none) = none
          rw [if_neg hr]
        simp only [List.filterMap_cons, hs, hp, List.filter_cons, hr]
        simp only [Bool.false_eq_true, if_false]
        exact ih

/-- C2: `calculateDayDuration` coincides with the reference definition
assembled from spec §4.4 on every item list. -/
theorem calculateDayDuration_refines_specRef (items : List Item) :
    calculateDayDuration items = calcDurationSpecRef items := by
  unfold calculateDayDuration calcDurationSpecRef
  rw [specValidMinutes_eq]
  by_cases he : items.isEmpty = true
  · rw [if_pos he, if_pos he]
  · rw [if_neg he, if_neg he]
    cases hv : validTimes items with
    | nil => rfl
    | cons t ts =>
      show formatDuration _ = _
      unfold formatDuration
      rfl

end ItinProc
